import Mathlib

/-!
# elastic_cron

A shallow embedding of `main.go` of `Luzifer/elastic_cron`: the notifier `doPing`,
the per-job executor built by `getJobExecutor`, the registration loop of `main`
and the index name function `getIndexNameFunc`. The cron library that parses
the schedules and computes the firing times is not part of `main.go`; its
`parse` and `next` follow the specification.

Calls that leave the process (HTTP, `exec`, the logger, the cron library) are
recorded as events of a trace; what they answer is an explicit environment.
A goroutine started by `go` is recorded by a `Go` event in the trace of the
function that starts it and owns a trace of its own, so nothing is said about
how the two interleave.
-/

namespace ElasticCron

/-! ## Data model -/

/-- The struct `cronJob`. -/
structure cronJob where
  Name : String
  Schedule : String
  Command : String
  Arguments : List String
  PingSuccess : String
  PingFailure : String
deriving DecidableEq

/-- The anonymous struct `cronConfig.Elasticsearch`. A nil `Auth` slice is the
empty list: the source only asks for its length and its elements. -/
structure ElasticsearchConfig where
  Auth : List String
  Index : String
  Servers : List String
deriving DecidableEq

/-- The struct `cronConfig`. -/
structure cronConfig where
  Elasticsearch : ElasticsearchConfig
  Jobs : List cronJob
deriving DecidableEq

/-- The two logrus levels the program logs at. -/
inductive Level where
  | InfoLevel
  | ErrorLevel
deriving DecidableEq

/-! ## The notifier: `doPing` -/

/-- What `http.DefaultClient.Do` answers: a response, of which the source reads
only `StatusCode` (a Go `int`), or an error (connection error, or the context
deadline of the ping timeout was exceeded). -/
inductive DoResult where
  | response (StatusCode : Int)
  | error (msg : String)
deriving DecidableEq

/-- The HTTP library as `doPing` uses it. `NewRequest url` is the error of
`http.NewRequest("GET", url, nil)`, if any; `Do url timeout` is what
`http.DefaultClient.Do` answers for that request under a context with the given
timeout. -/
structure Http where
  NewRequest : String → Option String
  Do : String → Int → DoResult

/-- One HTTP request handed to `http.DefaultClient.Do`. -/
structure Request where
  method : String
  url : String
  timeout : Int
deriving DecidableEq

/-- What one call of `doPing` did: the error it returned (`none` is Go's `nil`)
and the requests it issued, in order. -/
structure PingResult where
  err : Option String
  requests : List Request
deriving DecidableEq

/-- The function `doPing`, with `cfg.PingTimout` as an argument. -/
def doPing (http : Http) (PingTimout : Int) (url : String) : PingResult :=
  if url = "" then
    { err := none, requests := [] }
  else
    match http.NewRequest url with
    | some e => { err := some e, requests := [] }
    | none =>
      let req : Request := { method := "GET", url := url, timeout := PingTimout }
      match http.Do url PingTimout with
      | DoResult.error e => { err := some e, requests := [req] }
      | DoResult.response StatusCode =>
        if StatusCode > 299 then
          { err := some ("Expected HTTP2xx status, got HTTP" ++ toString StatusCode),
            requests := [req] }
        else
          { err := none, requests := [req] }

/-! ## The executor: `getJobExecutor` -/

/-- The dynamic type of the error `cmd.Run()` returns, as the type switch of the
executor sees it: `nil` (the command ran and exited with code 0),
`*exec.ExitError` (it ran and did not exit with code 0), or any other error
(such as a command that could not be started), with its text. -/
inductive RunError where
  | nil
  | ExitError (msg : String)
  | other (msg : String)
deriving DecidableEq

/-- What one `cmd.Run()` did: the lines the child wrote (to `cmd.Stdout`, the
info-level writer, or to `cmd.Stderr`, the error-level writer) and the error
returned. -/
structure RunResult where
  output : List (Level × String)
  err : RunError
deriving DecidableEq

/-- The calls one job invocation makes, as they appear in a trace. -/
inductive Event where
  /-- `logger.WriterLevel(level)` on the logger carrying field `job`. -/
  | WriterLevel (job : String) (level : Level)
  /-- `fmt.Fprintln(w, line)` on the writer of that level. -/
  | Fprintln (job : String) (level : Level) (line : String)
  /-- `cmd.Run()` of `exec.Command(Command, Arguments...)`: the call blocks
  until the command has ended (or could not be started). -/
  | Run (Command : String) (Arguments : List String) (res : RunResult)
  /-- A record made on the logger carrying field `job`: `Info`, `Error` or
  `Errorf` with its format and arguments, and the error of `WithError`. -/
  | Log (job : String) (level : Level) (format : String) (args : List String)
      (err : Option String)
  /-- The statement `go func(url string) ...(url)`. -/
  | Go (url : String)
  /-- A call `doPing(url)` and what it did. -/
  | Ping (url : String) (res : PingResult)
  /-- The deferred `Close()` of the writer of that level. -/
  | Close (level : Level)
deriving DecidableEq

/-- How a function call ends: it returns, or the process is terminated
(`os.Exit`, as `log.Fatal` does). -/
inductive Completion where
  | returned
  | exited (code : Int)
deriving DecidableEq

/-- One invocation of the function returned by `getJobExecutor`. -/
structure Execution where
  /-- The calls made by the executor itself, in order. -/
  main : List Event
  /-- One trace for each goroutine it started. -/
  spawned : List (List Event)
  completion : Completion
deriving DecidableEq

/-- What the executor's surroundings answer. -/
structure ExecEnv where
  Run : String → List String → RunResult
  http : Http
  PingTimout : Int

/-- The body of the goroutine started by `go func(url string)`, the same in the
three branches of the switch. -/
def pingTask (env : ExecEnv) (job : cronJob) (url : String) : List Event :=
  let res := doPing env.http env.PingTimout url
  match res.err with
  | none => [Event.Ping url res]
  | some e =>
    [Event.Ping url res,
     Event.Log job.Name Level.ErrorLevel "[SYS] Ping to URL %q caused an error" [url] (some e)]

/-- The function returned by `getJobExecutor(job)`, called once. -/
def getJobExecutor (env : ExecEnv) (job : cronJob) : Execution :=
  let res := env.Run job.Command job.Arguments
  let before : List Event :=
    [Event.WriterLevel job.Name Level.InfoLevel,
     Event.WriterLevel job.Name Level.ErrorLevel,
     Event.Fprintln job.Name Level.InfoLevel "[SYS] Starting job",
     Event.Run job.Command job.Arguments res]
  let deferred : List Event := [Event.Close Level.ErrorLevel, Event.Close Level.InfoLevel]
  match res.err with
  | RunError.nil =>
    { main := before ++
        [Event.Log job.Name Level.InfoLevel "[SYS] Command execution successful" [] none,
         Event.Go job.PingSuccess] ++ deferred
      spawned := [pingTask env job job.PingSuccess]
      completion := Completion.returned }
  | RunError.ExitError _ =>
    { main := before ++
        [Event.Log job.Name Level.InfoLevel
           "[SYS] Command exited with unexpected exit code != 0" [] none,
         Event.Go job.PingFailure] ++ deferred
      spawned := [pingTask env job job.PingFailure]
      completion := Completion.returned }
  | RunError.other cause =>
    { main := before ++
        [Event.Log job.Name Level.ErrorLevel "[SYS] Execution caused error" [] (some cause),
         Event.Go job.PingFailure] ++ deferred
      spawned := [pingTask env job job.PingFailure]
      completion := Completion.returned }

/-- The URLs `doPing` was called with in a trace, in order. -/
def pingUrls : List Event → List String
  | [] => []
  | Event.Ping url _ :: es => url :: pingUrls es
  | _ :: es => pingUrls es

/-- Every call of the notifier made by one invocation, by the executor itself or
by a goroutine it started. -/
def Execution.pings (x : Execution) : List String :=
  pingUrls x.main ++ (x.spawned.map pingUrls).flatten

/-- The log records of a trace made through `logger.Info`, `Error` or `Errorf`. -/
def logRecords : List Event → List Event
  | [] => []
  | Event.Log job level format args err :: es =>
    Event.Log job level format args err :: logRecords es
  | _ :: es => logRecords es

/-- The three outcome messages of the switch over the error of `cmd.Run()`. -/
def outcomeMessages : List String :=
  ["[SYS] Command execution successful",
   "[SYS] Command exited with unexpected exit code != 0",
   "[SYS] Execution caused error"]

/-- The outcome records of a trace: log records with one of the outcome messages. -/
def outcomeRecords : List Event → List Event
  | [] => []
  | Event.Log job level format args err :: es =>
    if format ∈ outcomeMessages then
      Event.Log job level format args err :: outcomeRecords es
    else outcomeRecords es
  | _ :: es => outcomeRecords es

/-- The writes of the status line `[SYS] Starting job` in a trace. -/
def startLines : List Event → List Event
  | [] => []
  | Event.Fprintln job level line :: es =>
    if line = "[SYS] Starting job" then Event.Fprintln job level line :: startLines es
    else startLines es
  | _ :: es => startLines es

/-! ## Startup: `main` -/

/-- What the libraries called by `main` answer. `AddFunc spec` is the error of
`c.AddFunc(spec, cmd)`, if any: the schedule parser of the cron library rejects
the expression. -/
structure MainEnv where
  readConfig : Except String cronConfig
  AddFunc : String → Option String
  NewSimpleClient : List String → Option (String × String) → Option String
  NewElasticHookWithFunc : Option String
  Hostname : String

/-- The calls of `main`, as they appear in its trace. -/
inductive MainEvent where
  /-- `c.AddFunc(job.Schedule, getJobExecutor(job))` and the error it returned. -/
  | AddFunc (job : cronJob) (err : Option String)
  /-- `log.Fatalf` or `log.WithError(err).Fatal`: the record is logged and the
  process exits with code 1. -/
  | Fatal (format : String) (args : List String) (err : Option String)
  /-- `elastic.NewSimpleClient` with the server URLs and the basic auth option. -/
  | NewSimpleClient (urls : List String) (auth : Option (String × String))
  /-- `elogrus.NewElasticHookWithFunc` for the host name. -/
  | NewElasticHookWithFunc (host : String)
  | AddHook
  /-- `c.Run()`: the scheduler loop over the registered jobs. Only this loop
  calls the executors. -/
  | Run (entries : List cronJob)
deriving DecidableEq

/-- One run of `main`: its trace and how it ended. `none` is a `main` that is
inside `c.Run()`, which does not return. -/
structure MainRun where
  trace : List MainEvent
  completion : Option Completion
deriving DecidableEq

/-- The loop `for i := range cc.Jobs` of `main`: the trace of the registrations
and, when all were accepted, the registered jobs. -/
def addJobs (AddFunc : String → Option String) :
    List cronJob → List MainEvent × Option (List cronJob)
  | [] => ([], some [])
  | job :: rest =>
    match AddFunc job.Schedule with
    | some err =>
      ([MainEvent.AddFunc job (some err),
        MainEvent.Fatal "Unable to add job '%s': %s" [job.Name, err] none], none)
    | none =>
      let r := addJobs AddFunc rest
      (MainEvent.AddFunc job none :: r.1, r.2.map (fun js => job :: js))

/-- The basic auth option of `main`: set when `Auth` has two elements and the
first is not empty. -/
def basicAuth (Auth : List String) : Option (String × String) :=
  match Auth with
  | [user, password] => if user ≠ "" then some (user, password) else none
  | _ => none

/-- The function `main`. -/
def main (env : MainEnv) : MainRun :=
  match env.readConfig with
  | Except.error err =>
    { trace := [MainEvent.Fatal "Unable to read config file: %s" [err] none]
      completion := some (Completion.exited 1) }
  | Except.ok cc =>
    match addJobs env.AddFunc cc.Jobs with
    | (t, none) => { trace := t, completion := some (Completion.exited 1) }
    | (t, some entries) =>
      let auth := basicAuth cc.Elasticsearch.Auth
      let t1 := t ++ [MainEvent.NewSimpleClient cc.Elasticsearch.Servers auth]
      match env.NewSimpleClient cc.Elasticsearch.Servers auth with
      | some err =>
        { trace := t1 ++
            [MainEvent.Fatal "Unable to create elasticsearch client" [] (some err)]
          completion := some (Completion.exited 1) }
      | none =>
        let t2 := t1 ++ [MainEvent.NewElasticHookWithFunc env.Hostname]
        match env.NewElasticHookWithFunc with
        | some err =>
          { trace := t2 ++
              [MainEvent.Fatal "Unable to create elasticsearch log hook" [] (some err)]
            completion := some (Completion.exited 1) }
        | none =>
          { trace := t2 ++ [MainEvent.AddHook, MainEvent.Run entries]
            completion := none }

/-- The `c.Run()` calls of a trace of `main`. -/
def schedulerRuns : List MainEvent → List MainEvent
  | [] => []
  | MainEvent.Run entries :: es => MainEvent.Run entries :: schedulerRuns es
  | _ :: es => schedulerRuns es

/-! ## The index name: `getIndexNameFunc` -/

/-- The prefix of a date placeholder, `%{+`. -/
def placeholderOpen : List Char := ['%', '{', '+']

/-- Go's `strings.Contains(s, substr)`. -/
def Contains (s substr : List Char) : Bool :=
  s.tails.any (fun t => substr.isPrefixOf t)

/-- Go's `strings.TrimPrefix(s, prefix)`. -/
def TrimPrefix (s pre : List Char) : List Char :=
  if pre.isPrefixOf s then s.drop pre.length else s

/-- Go's `strings.TrimSuffix(s, suffix)`. -/
def TrimSuffix (s suf : List Char) : List Char :=
  if suf.isSuffixOf s then s.take (s.length - suf.length) else s

/-- A match of the regular expression `%{\+([^}]+)}` at the start of the input:
the matched text and the input after it. After `%{+` the class `[^}]+` takes
every character up to the first `}`, at least one, and the `}` ends the match;
there is no other way to match, so greedy and leftmost-first agree. -/
def rexMatchPrefix : List Char → Option (List Char × List Char)
  | '%' :: '{' :: '+' :: cs =>
    let body := cs.takeWhile (fun c => c ≠ '}')
    match cs.dropWhile (fun c => c ≠ '}') with
    | '}' :: rest =>
      if body = [] then none else some (placeholderOpen ++ body ++ ['}'], rest)
    | _ => none
  | _ => none

/-- The loop of `rex.ReplaceAllStringFunc(src, repl)`: the leftmost match is
replaced by `repl` of the matched text and the search goes on after it; a
character at which no match starts is copied. The first number bounds the
steps, the second counts the calls of `repl` made so far. -/
def replaceAllAux (repl : Nat → List Char → List Char) : Nat → Nat → List Char → List Char
  | 0, _, s => s
  | _ + 1, _, [] => []
  | n + 1, k, c :: cs =>
    match rexMatchPrefix (c :: cs) with
    | some (m, rest) => repl k m ++ replaceAllAux repl n (k + 1) rest
    | none => c :: replaceAllAux repl n k cs

/-- Go's `rex.ReplaceAllStringFunc(src, repl)` for the expression of
`getIndexNameFunc`; `repl k` is call number `k` of the callback. Every step
consumes a character, so the length of the input bounds the number of steps. -/
def ReplaceAllStringFunc (src : List Char) (repl : Nat → List Char → List Char) :
    List Char :=
  replaceAllAux repl src.length 0 src

/-- The function returned by `getIndexNameFunc(cc)`, called once. The callback
reads the clock for every placeholder: `Now k` is what call number `k` of
`time.Now()` returns during this call, and `Format t layout` is the string
`dtfmt.Format(t, layout)` returns (its error is dropped by the source). -/
def getIndexNameFunc (Format : Int → String → String) (Now : Nat → Int) (cc : cronConfig) :
    String :=
  let Index := cc.Elasticsearch.Index.data
  if !Contains Index placeholderOpen then
    cc.Elasticsearch.Index
  else
    String.mk (ReplaceAllStringFunc Index (fun k f =>
      let f := TrimSuffix (TrimPrefix f placeholderOpen) ['}']
      (Format (Now k) (String.mk f)).data))

/-! ## The schedule parser and clock

`main` hands every schedule expression to the cron library
(`github.com/robfig/cron`: `cron.New`, `AddFunc`, `Run`), whose sources are not
part of `main.go`. The definitions of this section follow section 4.1 of the
specification. Instants are whole seconds since 1970-01-01T00:00:00 UTC; time
zone resolution is outside the core.
-/

/-- Modelled from the spec: the error `ScheduleSyntaxError` of the schedule
parser of the cron library, which is missing from the sources: wrong field
count, or a field (counted from 0) that is malformed or out of range. -/
inductive ScheduleSyntaxError where
  | fieldCount (n : Nat)
  | field (index : Nat)
deriving DecidableEq

/-- Modelled from the spec: the `ParsedSchedule` of the missing cron library.
Each field is the list of values it admits; `second` is `none` for a 5-field
expression, whose granularity is the minute. A day field is restricted when it
is not `*`. -/
structure ParsedSchedule where
  second : Option (List Nat)
  minute : List Nat
  hour : List Nat
  dom : List Nat
  month : List Nat
  dow : List Nat
  domRestricted : Bool
  dowRestricted : Bool
deriving DecidableEq

/-- Modelled from the spec: splitting of a schedule expression of the missing
cron library at the characters that satisfy `sep`. -/
def splitAt (sep : Char → Bool) : List Char → List (List Char)
  | [] => [[]]
  | c :: cs =>
    if sep c then [] :: splitAt sep cs
    else
      match splitAt sep cs with
      | [] => [[c]]
      | w :: ws => (c :: w) :: ws

/-- Modelled from the spec: the blank-separated fields of a schedule expression
of the missing cron library. -/
def fields (expr : List Char) : List (List Char) :=
  (splitAt (fun c => c = ' ' || c = '\t') expr).filter (fun w => w ≠ [])

/-- Modelled from the spec: a literal value of a field of the missing cron
library, a non-empty run of decimal digits. -/
def parseValue (cs : List Char) : Option Nat :=
  if cs ≠ [] ∧ cs.all Char.isDigit then
    some (cs.foldl (fun n c => 10 * n + (c.toNat - 48)) 0)
  else none

/-- Modelled from the spec: the values from `lo` to `hi` in steps of `step`, for
a field of the missing cron library. -/
def steps (lo hi step : Nat) : List Nat :=
  (List.range (hi + 1)).filter (fun v => lo ≤ v ∧ (v - lo) % step = 0)

/-- Modelled from the spec: the range part of one item of a field of the missing
cron library: `*` is the whole range of the field, a literal value is itself,
`a-b` is the range from `a` to `b`. Values outside `lo..hi` are rejected, and so
is a range that ends before it starts. -/
def parseRange (lo hi : Nat) (cs : List Char) : Option (Nat × Nat) :=
  if cs = ['*'] then some (lo, hi)
  else
    match splitAt (fun c => c = '-') cs with
    | [a] =>
      match parseValue a with
      | some v => if lo ≤ v ∧ v ≤ hi then some (v, v) else none
      | none => none
    | [a, b] =>
      match parseValue a, parseValue b with
      | some v, some w => if lo ≤ v ∧ v ≤ w ∧ w ≤ hi then some (v, w) else none
      | _, _ => none
    | _ => none

/-- Modelled from the spec: one item of a comma-separated field of the missing
cron library: a literal value, `*`, a range `a-b`, or a step `a-b/n` or `*/n`
(a step of 0, or one that is not a number, is malformed). -/
def parseItem (lo hi : Nat) (cs : List Char) : Option (List Nat) :=
  match splitAt (fun c => c = '/') cs with
  | [r] =>
    match parseRange lo hi r with
    | some (a, b) => some (steps a b 1)
    | none => none
  | [r, n] =>
    if r = ['*'] ∨ '-' ∈ r then
      match parseRange lo hi r, parseValue n with
      | some (a, b), some step => if 0 < step then some (steps a b step) else none
      | _, _ => none
    else none
  | _ => none

/-- Modelled from the spec: one field of a schedule expression of the missing
cron library, a comma-separated list of items; the field admits the values of
all its items. -/
def parseField (lo hi : Nat) (cs : List Char) : Option (List Nat) :=
  ((splitAt (fun c => c = ',') cs).mapM (parseItem lo hi)).map List.flatten

/-- Modelled from the spec: the five calendar fields minute, hour,
day-of-month, month, day-of-week of the missing cron library, parsed in that
order; `index` is the position of the first one in the expression. -/
def parseCalendarFields (index : Nat) (second : Option (List Nat))
    (fs : List (List Char)) : Except ScheduleSyntaxError ParsedSchedule :=
  match fs with
  | [mi, ho, dm, mo, dw] =>
    match parseField 0 59 mi with
    | none => Except.error (ScheduleSyntaxError.field index)
    | some minute =>
    match parseField 0 23 ho with
    | none => Except.error (ScheduleSyntaxError.field (index + 1))
    | some hour =>
    match parseField 1 31 dm with
    | none => Except.error (ScheduleSyntaxError.field (index + 2))
    | some dom =>
    match parseField 1 12 mo with
    | none => Except.error (ScheduleSyntaxError.field (index + 3))
    | some month =>
    match parseField 0 6 dw with
    | none => Except.error (ScheduleSyntaxError.field (index + 4))
    | some dow =>
      Except.ok
        { second := second, minute := minute, hour := hour, dom := dom, month := month,
          dow := dow, domRestricted := dm ≠ ['*'], dowRestricted := dw ≠ ['*'] }
  | _ => Except.error (ScheduleSyntaxError.fieldCount fs.length)

/-- Modelled from the spec: `parse` of the missing cron library: a 5-field
expression (minute hour day-of-month month day-of-week) or a 6-field one with
leading seconds; anything else fails with `ScheduleSyntaxError`. -/
def parse (expr : String) : Except ScheduleSyntaxError ParsedSchedule :=
  match fields expr.data with
  | [mi, ho, dm, mo, dw] => parseCalendarFields 0 none [mi, ho, dm, mo, dw]
  | [se, mi, ho, dm, mo, dw] =>
    match parseField 0 59 se with
    | none => Except.error (ScheduleSyntaxError.field 0)
    | some second => parseCalendarFields 1 (some second) [mi, ho, dm, mo, dw]
  | fs => Except.error (ScheduleSyntaxError.fieldCount fs.length)

/-- Modelled from the spec: the calendar the missing cron library uses to
handle month lengths and leap years: month (1..12) and day of month (1..31) of
the day `days` after 1970-01-01 in the proleptic Gregorian calendar, computed
over 400-year eras of 146097 days starting on a 1 March. -/
def monthDay (days : Int) : Nat × Nat :=
  let z := days + 719468
  let doe := (z % 146097).toNat
  let yoe := (doe - doe / 1460 + doe / 36524 - doe / 146096) / 365
  let doy := doe - (365 * yoe + yoe / 4 - yoe / 100)
  let mp := (5 * doy + 2) / 153
  let d := doy - (153 * mp + 2) / 5 + 1
  let m := if mp < 10 then mp + 3 else mp - 9
  (m, d)

/-- Modelled from the spec: the day of the week (0 is Sunday) of the missing
cron library; 1970-01-01 was a Thursday. -/
def weekday (days : Int) : Nat :=
  ((days + 4) % 7).toNat

/-- Modelled from the spec: the predicate "does instant `t` match" of the
missing cron library. All fields must admit the instant; day-of-month and
day-of-week are OR-combined when both are restricted. A 5-field schedule
matches on whole minutes only. -/
def ParsedSchedule.matches (s : ParsedSchedule) (t : Int) : Bool :=
  let days := t / 86400
  let md := monthDay days
  let secondOk : Bool :=
    match s.second with
    | none => decide (t % 60 = 0)
    | some second => decide ((t % 60).toNat ∈ second)
  let domOk := decide (md.2 ∈ s.dom)
  let dowOk := decide (weekday days ∈ s.dow)
  let dayOk := if s.domRestricted && s.dowRestricted then domOk || dowOk else domOk && dowOk
  secondOk && decide ((t / 60 % 60).toNat ∈ s.minute)
    && decide ((t / 3600 % 24).toNat ∈ s.hour) && decide (md.1 ∈ s.month) && dayOk

/-- Modelled from the spec: the granularity in seconds of a schedule of the
missing cron library: the second with a seconds field, else the minute. -/
def ParsedSchedule.granule (s : ParsedSchedule) : Nat :=
  match s.second with
  | none => 60
  | some _ => 1

/-- Modelled from the spec: the number of seconds of 400 Gregorian years
(146097 days), after which dates and weekdays repeat: a schedule that matches no
instant of such a window matches none at all. -/
def horizon : Nat := 146097 * 86400

/-- Modelled from the spec: the search of `next` of the missing cron library:
the first of the instants `t`, `t + g`, `t + 2g`, ... that matches, among the
first `n` of them. -/
def nextFrom (s : ParsedSchedule) (g : Nat) : Nat → Int → Option Int
  | 0, _ => none
  | n + 1, t => if s.matches t then some t else nextFrom s g n (t + g)

/-- Modelled from the spec: `next(schedule, after)` of the missing cron library:
the soonest instant strictly after `after`, rounded up to the next whole second
or minute boundary, that satisfies all fields; `none` when the schedule never
produces a future instant (the entry is never fired again). -/
def next (s : ParsedSchedule) (after : Int) : Option Int :=
  nextFrom s s.granule (horizon / s.granule) ((after / s.granule + 1) * s.granule)

/-! ## Concrete environments -/

/-- An HTTP library whose server answers every request with status 204. -/
def httpNoContent : Http :=
  { NewRequest := fun _ => none, Do := fun _ _ => DoResult.response 204 }

/-- An HTTP library whose server answers every request with status 101
(Switching Protocols), which Go's client hands to the caller as a response. -/
def httpSwitchingProtocols : Http :=
  { NewRequest := fun _ => none, Do := fun _ _ => DoResult.response 101 }

/-- An environment whose command exits with a non-zero code and whose watchdog
answers 204. -/
def envExitError : ExecEnv :=
  { Run := fun _ _ => { output := [], err := RunError.ExitError "exit status 1" }
    http := httpNoContent
    PingTimout := 1000000000 }

/-- An environment whose command cannot be started and whose watchdog answers
with status 500. -/
def envLaunchError : ExecEnv :=
  { Run := fun _ _ =>
      { output := [], err := RunError.other "fork/exec /bin/missing: no such file or directory" }
    http := { NewRequest := fun _ => none, Do := fun _ _ => DoResult.response 500 }
    PingTimout := 1000000000 }

/-- The job of the scenario of the specification. -/
def backupJob : cronJob :=
  { Name := "backup", Schedule := "*/5 * * * *", Command := "/bin/false", Arguments := [],
    PingSuccess := "http://watchdog/ok", PingFailure := "http://watchdog/fail" }

/-- A configuration whose second job has a malformed schedule. -/
def brokenConfig : cronConfig :=
  { Elasticsearch := { Auth := [], Index := "elastic_cron-%\x7b+YYYY.MM.dd\x7d", Servers := [] }
    Jobs := [backupJob,
      { Name := "report", Schedule := "every day", Command := "/bin/true", Arguments := [],
        PingSuccess := "", PingFailure := "" },
      backupJob] }

/-- A startup environment that reads `brokenConfig` and whose schedule parser
rejects the expression `every day`. -/
def brokenEnv : MainEnv :=
  { readConfig := Except.ok brokenConfig
    AddFunc := fun spec => if spec = "every day" then some "Expected 5 to 6 fields" else none
    NewSimpleClient := fun _ _ => none
    NewElasticHookWithFunc := none
    Hostname := "localhost" }
/-- The string contains a complete date placeholder: `%{+` followed by one or
more characters other than `}` followed by `}`. -/
def HasPlaceholder (s : List Char) : Prop :=
  ∃ pre body post, body ≠ [] ∧ '}' ∉ body ∧ s = pre ++ placeholderOpen ++ body ++ ['}'] ++ post

/-- Whether a match of the regular expression starts somewhere in the string. -/
def hasMatch (s : List Char) : Bool :=
  s.tails.any (fun t => (rexMatchPrefix t).isSome)

/-- A piece of an index string: text outside the date placeholders, or one
placeholder `%{+layout}`. -/
inductive Segment where
  | text (cs : List Char)
  | placeholder (layout : List Char)
deriving DecidableEq

/-- The piece as it stands in the configured index string. -/
def Segment.source : Segment → List Char
  | Segment.text cs => cs
  | Segment.placeholder layout => placeholderOpen ++ layout ++ ['}']

/-- The pieces as they stand in the index name: text is kept, a placeholder is
replaced by the date in its layout; `format k` formats placeholder number `k`. -/
def renderSegments (format : Nat → String → String) : Nat → List Segment → List Char
  | _, [] => []
  | k, Segment.text cs :: segs => cs ++ renderSegments format k segs
  | k, Segment.placeholder layout :: segs =>
    (format k (String.mk layout)).data ++ renderSegments format (k + 1) segs

/-- A configuration with the given index string and nothing else. -/
def configWithIndex (Index : String) : cronConfig :=
  { Elasticsearch := { Auth := [], Index := Index, Servers := [] }, Jobs := [] }

/-- A clock that starts at 2026-11-01T00:00:00Z and advances by a second with
every reading. -/
def sampleNow (k : Nat) : Int := 1793491200 + k

/-- A date formatter that knows the layout `YYYY.MM.dd` on 2026-11-01. -/
def sampleFormat (t : Int) (layout : String) : String :=
  if 1793491200 ≤ t ∧ t < 1793577600 ∧ layout = "YYYY.MM.dd" then "2026.11.01" else "?"

/-- The schedule `*/5 * * * *` of the scenario of the specification, parsed. -/
def everyFiveMinutes : ParsedSchedule :=
  { second := none
    minute := [0, 5, 10, 15, 20, 25, 30, 35, 40, 45, 50, 55]
    hour := steps 0 23 1
    dom := steps 1 31 1
    month := steps 1 12 1
    dow := steps 0 6 1
    domRestricted := false
    dowRestricted := false }

/-- The schedule `0 0 1 * 1` of the specification, parsed: midnight on the 1st
or on Mondays. -/
def firstOrMonday : ParsedSchedule :=
  { second := none
    minute := [0]
    hour := [0]
    dom := [1]
    month := steps 1 12 1
    dow := [1]
    domRestricted := true
    dowRestricted := true }

/-! ## Theorems: the notifier -/

/-- C1: `doPing("")` returns nil and issues no HTTP request, whatever the HTTP
library would answer and whatever the ping timeout is. -/
theorem doPing_empty_url (http : Http) (PingTimout : Int) :
    doPing http PingTimout "" = { err := none, requests := [] } := by
  simp [doPing]

/-- C2: for a non-empty url whose GET yields a response with a status code from
200 to 299, `doPing` returns nil (after exactly one GET request for that url). -/
theorem doPing_ok_of_2xx (http : Http) (PingTimout : Int) (url : String) (s : Int)
    (hurl : url ≠ "") (hreq : http.NewRequest url = none)
    (hdo : http.Do url PingTimout = DoResult.response s)
    (hlo : 200 ≤ s) (hhi : s ≤ 299) :
    (doPing http PingTimout url).err = none ∧
      (doPing http PingTimout url).requests =
        [{ method := "GET", url := url, timeout := PingTimout }] := by
  have h : ¬ s > 299 := by omega
  simp [doPing, hurl, hreq, hdo, h]

/-- Witness of C2: a watchdog answering 204 to a ping with a timeout of one second. -/
theorem doPing_ok_of_2xx_witness :
    (doPing httpNoContent 1000000000 "http://watchdog/ok").err = none ∧
      (doPing httpNoContent 1000000000 "http://watchdog/ok").requests =
        [{ method := "GET", url := "http://watchdog/ok", timeout := 1000000000 }] :=
  doPing_ok_of_2xx httpNoContent 1000000000 "http://watchdog/ok" 204
    (by decide) rfl rfl (by decide) (by decide)

/-- C3: at a response with status 101, outside 200..299, `doPing` returns nil:
the only test of the source is `StatusCode > 299`, although its error message
says that a 2xx status is expected. -/
theorem doPing_accepts_status_101 :
    (doPing httpSwitchingProtocols 1000000000 "http://watchdog/fail").err = none := by
  decide

/-- What does hold of `doPing` and the status code: a response is reported as an
error exactly when its status is above 299. -/
theorem doPing_err_iff_above_299 (http : Http) (PingTimout : Int) (url : String) (s : Int)
    (hurl : url ≠ "") (hreq : http.NewRequest url = none)
    (hdo : http.Do url PingTimout = DoResult.response s) :
    (doPing http PingTimout url).err ≠ none ↔ 299 < s := by
  by_cases h : s > 299 <;> simp [doPing, hurl, hreq, hdo, h]

/-! ## Theorems: the executor -/

/-- The goroutine of the executor calls `doPing` once, with its url. -/
theorem pingUrls_pingTask (env : ExecEnv) (job : cronJob) (url : String) :
    pingUrls (pingTask env job url) = [url] := by
  cases h : (doPing env.http env.PingTimout url).err <;> simp [pingTask, h, pingUrls]

/-- The goroutine of the executor writes no status line and no outcome record. -/
theorem pingTask_no_outcome (env : ExecEnv) (job : cronJob) (url : String) :
    startLines (pingTask env job url) = [] ∧ outcomeRecords (pingTask env job url) = [] := by
  cases h : (doPing env.http env.PingTimout url).err <;>
    simp [pingTask, h, startLines, outcomeRecords, outcomeMessages]

/-- C4: one invocation of the executor calls the notifier exactly once, in the
one goroutine it starts: with `job.PingSuccess` when `cmd.Run()` returned nil,
with `job.PingFailure` when it returned an exit error or any other error. -/
theorem executor_pings_once (env : ExecEnv) (job : cronJob) :
    ((env.Run job.Command job.Arguments).err = RunError.nil →
        (getJobExecutor env job).pings = [job.PingSuccess]) ∧
    (∀ msg, (env.Run job.Command job.Arguments).err = RunError.ExitError msg →
        (getJobExecutor env job).pings = [job.PingFailure]) ∧
    (∀ cause, (env.Run job.Command job.Arguments).err = RunError.other cause →
        (getJobExecutor env job).pings = [job.PingFailure]) ∧
    (getJobExecutor env job).pings.length = 1 ∧
    (getJobExecutor env job).spawned.length = 1 := by
  unfold getJobExecutor Execution.pings
  cases h : (env.Run job.Command job.Arguments).err <;>
    simp [h, pingUrls, pingUrls_pingTask]

/-- The scenario of the specification: `/bin/false` exits with a non-zero code,
the notifier is called for the failure URL and for nothing else. -/
theorem executor_pings_once_scenario :
    (getJobExecutor envExitError backupJob).pings = ["http://watchdog/fail"] :=
  (executor_pings_once envExitError backupJob).2.1 "exit status 1" rfl

/-- C6: one invocation of the executor returns, whatever the command and the
ping did; what the executor itself does (its trace, and so the branch taken)
does not depend on what the ping does; and the goroutine logs one error-level
record when the ping fails and none when it succeeds. -/
theorem executor_contains_errors (env : ExecEnv) (job : cronJob) :
    (getJobExecutor env job).completion = Completion.returned ∧
    (∀ (http : Http) (PingTimout : Int),
        (getJobExecutor { Run := env.Run, http := http, PingTimout := PingTimout } job).main =
          (getJobExecutor env job).main ∧
        (getJobExecutor { Run := env.Run, http := http, PingTimout := PingTimout } job).completion =
          (getJobExecutor env job).completion) ∧
    ∃ url, (getJobExecutor env job).spawned = [pingTask env job url] ∧
      (∀ e, (doPing env.http env.PingTimout url).err = some e →
        logRecords (pingTask env job url) =
          [Event.Log job.Name Level.ErrorLevel "[SYS] Ping to URL %q caused an error" [url]
            (some e)]) ∧
      ((doPing env.http env.PingTimout url).err = none →
        logRecords (pingTask env job url) = []) := by
  refine ⟨?_, ?_, ?_⟩
  · unfold getJobExecutor
    cases h : (env.Run job.Command job.Arguments).err <;> simp [h]
  · intro http PingTimout
    unfold getJobExecutor
    cases h : (env.Run job.Command job.Arguments).err <;> simp [h]
  · have key : ∀ url,
        (∀ e, (doPing env.http env.PingTimout url).err = some e →
          logRecords (pingTask env job url) =
            [Event.Log job.Name Level.ErrorLevel "[SYS] Ping to URL %q caused an error" [url]
              (some e)]) ∧
        ((doPing env.http env.PingTimout url).err = none →
          logRecords (pingTask env job url) = []) := by
      intro url
      cases h : (doPing env.http env.PingTimout url).err <;> simp [pingTask, h, logRecords]
    cases h : (env.Run job.Command job.Arguments).err
    · exact ⟨job.PingSuccess, by simp [getJobExecutor, h], key _⟩
    · exact ⟨job.PingFailure, by simp [getJobExecutor, h], key _⟩
    · exact ⟨job.PingFailure, by simp [getJobExecutor, h], key _⟩

/-- C7: the trace of one invocation starts with the two writers, the write of
the line `[SYS] Starting job`, the run of the command and one outcome record, in
that order; the status line and the outcome record occur nowhere else, neither
in the rest of the trace nor in the goroutine, and both carry the job's name. -/
theorem executor_start_and_outcome (env : ExecEnv) (job : cronJob) :
    ∃ (level : Level) (format : String) (err : Option String) (rest : List Event),
      format ∈ outcomeMessages ∧
      (getJobExecutor env job).main =
        [Event.WriterLevel job.Name Level.InfoLevel,
         Event.WriterLevel job.Name Level.ErrorLevel,
         Event.Fprintln job.Name Level.InfoLevel "[SYS] Starting job",
         Event.Run job.Command job.Arguments (env.Run job.Command job.Arguments),
         Event.Log job.Name level format [] err] ++ rest ∧
      startLines (getJobExecutor env job).main =
        [Event.Fprintln job.Name Level.InfoLevel "[SYS] Starting job"] ∧
      outcomeRecords (getJobExecutor env job).main =
        [Event.Log job.Name level format [] err] ∧
      ∀ task ∈ (getJobExecutor env job).spawned,
        startLines task = [] ∧ outcomeRecords task = [] := by
  cases h : (env.Run job.Command job.Arguments).err
  · refine ⟨Level.InfoLevel, "[SYS] Command execution successful", none,
      [Event.Go job.PingSuccess, Event.Close Level.ErrorLevel, Event.Close Level.InfoLevel],
      ?_⟩
    simp [getJobExecutor, h, startLines, outcomeRecords, outcomeMessages, pingTask_no_outcome]
  · refine ⟨Level.InfoLevel, "[SYS] Command exited with unexpected exit code != 0", none,
      [Event.Go job.PingFailure, Event.Close Level.ErrorLevel, Event.Close Level.InfoLevel],
      ?_⟩
    simp [getJobExecutor, h, startLines, outcomeRecords, outcomeMessages, pingTask_no_outcome]
  · rename_i cause
    refine ⟨Level.ErrorLevel, "[SYS] Execution caused error", some cause,
      [Event.Go job.PingFailure, Event.Close Level.ErrorLevel, Event.Close Level.InfoLevel],
      ?_⟩
    simp [getJobExecutor, h, startLines, outcomeRecords, outcomeMessages, pingTask_no_outcome]

/-- C8: when the command cannot be started, the one outcome record is at error
level and carries the cause, and the notifier is called as for a non-zero exit
of the same job: once, with `job.PingFailure`. -/
theorem executor_launch_error (env env2 : ExecEnv) (job : cronJob) (cause msg : String)
    (hlaunch : (env.Run job.Command job.Arguments).err = RunError.other cause)
    (hexit : (env2.Run job.Command job.Arguments).err = RunError.ExitError msg) :
    outcomeRecords (getJobExecutor env job).main =
      [Event.Log job.Name Level.ErrorLevel "[SYS] Execution caused error" [] (some cause)] ∧
    (getJobExecutor env job).pings = [job.PingFailure] ∧
    (getJobExecutor env job).pings = (getJobExecutor env2 job).pings := by
  unfold getJobExecutor Execution.pings
  simp [hlaunch, hexit, pingUrls, pingUrls_pingTask, outcomeRecords, outcomeMessages]

/-- Witness of C8: a missing binary against a command that exits with code 1. -/
theorem executor_launch_error_witness :
    outcomeRecords (getJobExecutor envLaunchError backupJob).main =
      [Event.Log "backup" Level.ErrorLevel "[SYS] Execution caused error" []
        (some "fork/exec /bin/missing: no such file or directory")] ∧
    (getJobExecutor envLaunchError backupJob).pings = ["http://watchdog/fail"] ∧
    (getJobExecutor envLaunchError backupJob).pings =
      (getJobExecutor envExitError backupJob).pings :=
  executor_launch_error envLaunchError envExitError backupJob
    "fork/exec /bin/missing: no such file or directory" "exit status 1" rfl rfl

/-! ## Theorems: startup -/

/-- The registration loop stops at the first job whose schedule is rejected: the
jobs before it are registered, the rejection is followed by the fatal record
naming the job, and no list of entries is produced. -/
theorem addJobs_rejected (AddFunc : String → Option String) (jobs : List cronJob)
    (hbad : ∃ job ∈ jobs, AddFunc job.Schedule ≠ none) :
    ∃ before job err after, jobs = before ++ job :: after ∧
      (∀ j ∈ before, AddFunc j.Schedule = none) ∧ AddFunc job.Schedule = some err ∧
      addJobs AddFunc jobs =
        (before.map (fun j => MainEvent.AddFunc j none) ++
          [MainEvent.AddFunc job (some err),
           MainEvent.Fatal "Unable to add job '%s': %s" [job.Name, err] none], none) := by
  induction jobs with
  | nil => simp at hbad
  | cons j rest ih =>
    cases hj : AddFunc j.Schedule with
    | some err =>
      exact ⟨[], j, err, rest, rfl, by simp, hj, by simp [addJobs, hj]⟩
    | none =>
      have hrest : ∃ job ∈ rest, AddFunc job.Schedule ≠ none := by
        obtain ⟨job, hmem, hne⟩ := hbad
        rcases List.mem_cons.mp hmem with h | h
        · subst h
          exact absurd hj hne
        · exact ⟨job, h, hne⟩
      obtain ⟨before, job, err, after, hsplit, hok, herr, hrun⟩ := ih hrest
      refine ⟨j :: before, job, err, after, by simp [hsplit], ?_, herr, ?_⟩
      · intro x hx
        rcases List.mem_cons.mp hx with h | h
        · subst h
          exact hj
        · exact hok x h
      · simp [addJobs, hj, hrun]

/-- C5: when the schedule of some job of the configuration is rejected at
registration, `main` ends in the fatal record naming a job whose schedule was
rejected (the first one), the process exits with code 1, and `c.Run()` is never
called, so no executor runs. -/
theorem main_fatal_on_rejected_schedule (env : MainEnv) (cc : cronConfig)
    (hcfg : env.readConfig = Except.ok cc)
    (hbad : ∃ job ∈ cc.Jobs, env.AddFunc job.Schedule ≠ none) :
    ∃ before job err after, cc.Jobs = before ++ job :: after ∧
      (∀ j ∈ before, env.AddFunc j.Schedule = none) ∧
      env.AddFunc job.Schedule = some err ∧
      (main env).trace =
        before.map (fun j => MainEvent.AddFunc j none) ++
          [MainEvent.AddFunc job (some err),
           MainEvent.Fatal "Unable to add job '%s': %s" [job.Name, err] none] ∧
      (main env).completion = some (Completion.exited 1) ∧
      schedulerRuns (main env).trace = [] := by
  obtain ⟨before, job, err, after, hsplit, hok, herr, hrun⟩ :=
    addJobs_rejected env.AddFunc cc.Jobs hbad
  have hno : ∀ js : List cronJob, ∀ tail : List MainEvent, schedulerRuns tail = [] →
      schedulerRuns (js.map (fun j => MainEvent.AddFunc j none) ++ tail) = [] := by
    intro js tail htail
    induction js with
    | nil => simpa using htail
    | cons j js ih => simpa [schedulerRuns] using ih
  refine ⟨before, job, err, after, hsplit, hok, herr, ?_, ?_, ?_⟩
  · simp [main, hcfg, hrun]
  · simp [main, hcfg, hrun]
  · simp only [main, hcfg, hrun]
    exact hno before _ (by simp [schedulerRuns])

/-- Witness of C5: the second of three jobs has the schedule `every day`; the
first job is registered, the third is never looked at. -/
theorem main_fatal_on_rejected_schedule_witness :
    ∃ before job err after, brokenConfig.Jobs = before ++ job :: after ∧
      (∀ j ∈ before, brokenEnv.AddFunc j.Schedule = none) ∧
      brokenEnv.AddFunc job.Schedule = some err ∧
      (main brokenEnv).trace =
        before.map (fun j => MainEvent.AddFunc j none) ++
          [MainEvent.AddFunc job (some err),
           MainEvent.Fatal "Unable to add job '%s': %s" [job.Name, err] none] ∧
      (main brokenEnv).completion = some (Completion.exited 1) ∧
      schedulerRuns (main brokenEnv).trace = [] :=
  main_fatal_on_rejected_schedule brokenEnv brokenConfig rfl
    ⟨brokenConfig.Jobs.get ⟨1, by decide⟩, by decide, by decide⟩

/-- The run of `main` on the broken configuration, evaluated. -/
theorem main_brokenEnv_trace :
    (main brokenEnv).trace =
      [MainEvent.AddFunc backupJob none,
       MainEvent.AddFunc (brokenConfig.Jobs.get ⟨1, by decide⟩)
         (some "Expected 5 to 6 fields"),
       MainEvent.Fatal "Unable to add job '%s': %s" ["report", "Expected 5 to 6 fields"] none] := by
  decide

/-! ## Theorems: the index name -/

/-- A match of the regular expression is a complete placeholder at the start of
the input. -/
theorem rexMatchPrefix_some (s m rest : List Char) (h : rexMatchPrefix s = some (m, rest)) :
    ∃ body, body ≠ [] ∧ '}' ∉ body ∧ m = placeholderOpen ++ body ++ ['}'] ∧ s = m ++ rest := by
  unfold rexMatchPrefix at h
  split at h
  · rename_i cs
    split at h
    · rename_i rest2 hdrop
      dsimp only at h
      split at h
      · simp at h
      · rename_i hbody
        simp only [Option.some.injEq, Prod.mk.injEq] at h
        obtain ⟨hm, hr⟩ := h
        refine ⟨cs.takeWhile (fun c => c ≠ '}'), hbody, ?_, hm.symm, ?_⟩
        · intro hmem
          have := List.mem_takeWhile_imp hmem
          simp at this
        · have hcs := List.takeWhile_append_dropWhile (fun c => decide (c ≠ '}')) cs
          rw [hdrop] at hcs
          rw [← hm, ← hr]
          simp only [placeholderOpen, List.cons_append, List.nil_append, List.append_assoc]
          rw [hcs]
    · simp at h
  · simp at h

/-- A complete placeholder at the start of the input is matched, up to its
closing brace. -/
theorem rexMatchPrefix_placeholder (body post : List Char) (hne : body ≠ [])
    (hbody : '}' ∉ body) :
    rexMatchPrefix (placeholderOpen ++ body ++ ['}'] ++ post) =
      some (placeholderOpen ++ body ++ ['}'], post) := by
  have htake : ∀ b : List Char, '}' ∉ b →
      (b ++ '}' :: post).takeWhile (fun c => c ≠ '}') = b ∧
      (b ++ '}' :: post).dropWhile (fun c => c ≠ '}') = '}' :: post := by
    intro b hb
    induction b with
    | nil => simp [List.takeWhile, List.dropWhile]
    | cons c b ih =>
      have hc : decide (c ≠ '}') = true := by
        simp only [decide_eq_true_eq]
        exact fun h => hb (by simp [h])
      have hb2 : '}' ∉ b := fun h => hb (by simp [h])
      obtain ⟨i1, i2⟩ := ih hb2
      simp only [List.cons_append, List.takeWhile_cons, List.dropWhile_cons, hc, if_true, i1, i2,
        and_self]
  obtain ⟨h1, h2⟩ := htake body hbody
  simp only [placeholderOpen, List.cons_append, List.nil_append, List.append_assoc,
    rexMatchPrefix, h1, h2]
  simp [hne]

/-- A complete placeholder somewhere in the string is a match of the regular
expression at some position, and conversely. -/
theorem hasPlaceholder_iff_hasMatch (s : List Char) : HasPlaceholder s ↔ hasMatch s = true := by
  unfold HasPlaceholder hasMatch
  rw [List.any_eq_true]
  constructor
  · rintro ⟨pre, body, post, hne, hbody, rfl⟩
    refine ⟨placeholderOpen ++ body ++ ['}'] ++ post, ?_, ?_⟩
    · rw [List.mem_tails]
      exact ⟨pre, by simp⟩
    · rw [rexMatchPrefix_placeholder body post hne hbody]
      rfl
  · rintro ⟨t, ht, hsome⟩
    rw [List.mem_tails] at ht
    obtain ⟨pre, rfl⟩ := ht
    cases hm : rexMatchPrefix t with
    | none => simp [hm] at hsome
    | some p =>
      obtain ⟨body, hne, hbody, hmm, hs⟩ := rexMatchPrefix_some t p.1 p.2 hm
      exact ⟨pre, body, p.2, hne, hbody, by rw [hs, hmm]; simp⟩

/-- Without a complete placeholder the replacement loop copies its input,
whatever the bound on its steps. -/
theorem replaceAllAux_of_no_placeholder (repl : Nat → List Char → List Char) (n k : Nat)
    (s : List Char) (h : ¬ HasPlaceholder s) : replaceAllAux repl n k s = s := by
  induction n generalizing s with
  | zero => rfl
  | succ n ih =>
    cases s with
    | nil => rfl
    | cons c cs =>
      have hnone : rexMatchPrefix (c :: cs) = none := by
        cases hm : rexMatchPrefix (c :: cs) with
        | none => rfl
        | some p =>
          obtain ⟨body, hne, hbody, hmm, hs⟩ := rexMatchPrefix_some (c :: cs) p.1 p.2 hm
          exact absurd ⟨[], body, p.2, hne, hbody, by rw [hs, hmm]; simp⟩ h
      have hcs : ¬ HasPlaceholder cs := by
        rintro ⟨pre, body, post, hne, hbody, rfl⟩
        exact h ⟨c :: pre, body, post, hne, hbody, by simp⟩
      simp [replaceAllAux, hnone, ih cs hcs]

/-- The layout of a placeholder, as the callback of `getIndexNameFunc` cuts it
out of the matched text. -/
theorem trim_placeholder (layout : List Char) :
    TrimSuffix (TrimPrefix (placeholderOpen ++ layout ++ ['}']) placeholderOpen) ['}'] =
      layout := by
  have h1 : TrimPrefix (placeholderOpen ++ layout ++ ['}']) placeholderOpen = layout ++ ['}'] := by
    simp [TrimPrefix, placeholderOpen, List.isPrefixOf]
  have h2 : List.isSuffixOf ['}'] (layout ++ ['}']) = true := by
    rw [List.isSuffixOf_iff_suffix]
    exact ⟨layout, rfl⟩
  rw [h1]
  simp [TrimSuffix, h2]

/-- With a bound that covers the input, the replacement loop cuts the input
into text and placeholders and replaces exactly the placeholders, in order. -/
theorem replaceAllAux_segments (n : Nat) (s : List Char) (hn : s.length ≤ n) :
    ∃ segs : List Segment, s = (segs.map Segment.source).flatten ∧
      (∀ layout, Segment.placeholder layout ∈ segs → layout ≠ [] ∧ '}' ∉ layout) ∧
      ∀ (format : Nat → String → String) (k : Nat),
        replaceAllAux (fun k f =>
            (format k (String.mk (TrimSuffix (TrimPrefix f placeholderOpen) ['}']))).data)
          n k s = renderSegments format k segs := by
  induction n generalizing s with
  | zero =>
    have hs : s = [] := List.length_eq_zero.mp (Nat.le_zero.mp hn)
    subst hs
    exact ⟨[], rfl, by simp, fun _ _ => rfl⟩
  | succ n ih =>
    cases s with
    | nil => exact ⟨[], rfl, by simp, fun _ _ => rfl⟩
    | cons c cs =>
      cases hm : rexMatchPrefix (c :: cs) with
      | none =>
        obtain ⟨segs, hsrc, hwf, hout⟩ := ih cs (by simpa using hn)
        refine ⟨Segment.text [c] :: segs, ?_, ?_, ?_⟩
        · simp [Segment.source, ← hsrc]
        · intro layout hmem
          simp only [List.mem_cons] at hmem
          rcases hmem with h | h
          · cases h
          · exact hwf layout h
        · intro format k
          simp [replaceAllAux, hm, hout format k, renderSegments]
      | some p =>
        obtain ⟨body, hne, hbody, hmm, hs⟩ := rexMatchPrefix_some (c :: cs) p.1 p.2 hm
        have hlen : p.2.length ≤ n := by
          have := congrArg List.length hs
          rw [hmm] at this
          simp [placeholderOpen] at this hn
          omega
        obtain ⟨segs, hsrc, hwf, hout⟩ := ih p.2 hlen
        refine ⟨Segment.placeholder body :: segs, ?_, ?_, ?_⟩
        · rw [hs, hmm]
          simp [Segment.source, ← hsrc]
        · intro layout hmem
          simp only [List.mem_cons] at hmem
          rcases hmem with h | h
          · cases h
            exact ⟨hne, hbody⟩
          · exact hwf layout h
        · intro format k
          have hp : p = (p.1, p.2) := rfl
          rw [hp] at hm
          simp only [replaceAllAux, hm, hout format (k + 1), renderSegments, hmm,
            trim_placeholder]

/-- C10: for an index string without a complete date placeholder (`%{+`, one or
more characters other than `}`, then `}`) the function returned by
`getIndexNameFunc` returns the index string itself, for every clock and every
date formatter; and in general the index string is a sequence of text pieces
and well-formed placeholders of which the function keeps every text piece, in
order, and replaces only placeholders. -/
theorem getIndexNameFunc_keeps_text (cc : cronConfig) :
    (¬ HasPlaceholder cc.Elasticsearch.Index.data →
      ∀ (Format : Int → String → String) (Now : Nat → Int),
        getIndexNameFunc Format Now cc = cc.Elasticsearch.Index) ∧
    ∃ segs : List Segment,
      cc.Elasticsearch.Index.data = (segs.map Segment.source).flatten ∧
      (∀ layout, Segment.placeholder layout ∈ segs → layout ≠ [] ∧ '}' ∉ layout) ∧
      ∀ (Format : Int → String → String) (Now : Nat → Int),
        (getIndexNameFunc Format Now cc).data =
          renderSegments (fun k layout => Format (Now k) layout) 0 segs := by
  constructor
  · intro h Format Now
    unfold getIndexNameFunc
    simp only [ReplaceAllStringFunc, replaceAllAux_of_no_placeholder _ _ _ _ h]
    split <;> rfl
  · cases hc : Contains cc.Elasticsearch.Index.data placeholderOpen with
    | false =>
      refine ⟨[Segment.text cc.Elasticsearch.Index.data], by simp [Segment.source], by simp, ?_⟩
      intro Format Now
      simp [getIndexNameFunc, hc, renderSegments]
    | true =>
      obtain ⟨segs, hsrc, hwf, hout⟩ :=
        replaceAllAux_segments cc.Elasticsearch.Index.data.length cc.Elasticsearch.Index.data
          (Nat.le_refl _)
      refine ⟨segs, hsrc, hwf, ?_⟩
      intro Format Now
      simp only [getIndexNameFunc, hc, ReplaceAllStringFunc]
      exact hout (fun k layout => Format (Now k) layout) 0

/-- Witness of C10: index strings with an unterminated and with an empty
placeholder come back unchanged, although both contain `%{+`. -/
theorem getIndexNameFunc_keeps_text_witness :
    getIndexNameFunc sampleFormat sampleNow (configWithIndex "logs-%\x7b+") = "logs-%\x7b+" ∧
    getIndexNameFunc sampleFormat sampleNow (configWithIndex "logs-%\x7b+\x7d") =
      "logs-%\x7b+\x7d" :=
  ⟨(getIndexNameFunc_keeps_text (configWithIndex "logs-%\x7b+")).1
      (by rw [hasPlaceholder_iff_hasMatch]; decide) sampleFormat sampleNow,
   (getIndexNameFunc_keeps_text (configWithIndex "logs-%\x7b+\x7d")).1
      (by rw [hasPlaceholder_iff_hasMatch]; decide) sampleFormat sampleNow⟩

/-- The default index of `readConfig`, evaluated: the placeholder is replaced by
the date and the text before it is kept. In the second string the leftmost
match starts at the first `%{+` and ends at the first `}`. -/
theorem getIndexNameFunc_default_index :
    getIndexNameFunc sampleFormat sampleNow
        (configWithIndex "elastic_cron-%\x7b+YYYY.MM.dd\x7d") =
      "elastic_cron-2026.11.01" ∧
    getIndexNameFunc sampleFormat sampleNow
        (configWithIndex "a%\x7b+x%\x7b+YYYY.MM.dd\x7db\x7d-%\x7b+YYYY.MM.dd\x7d") =
      "a?b\x7d-2026.11.01" := by
  decide

/-! ## Theorems: the schedule clock -/

/-- The calendar fields are parsed without touching the seconds field. -/
theorem parseCalendarFields_second (index : Nat) (second : Option (List Nat))
    (fs : List (List Char)) (s : ParsedSchedule)
    (h : parseCalendarFields index second fs = Except.ok s) : s.second = second := by
  unfold parseCalendarFields at h
  repeat' split at h
  all_goals
    cases h
    try rfl

/-- A 5-field expression parses to a schedule without a seconds field. -/
theorem parse_five_fields (E : String) (s : ParsedSchedule)
    (hfields : (fields E.data).length = 5) (hparse : parse E = Except.ok s) :
    s.second = none := by
  unfold parse at hparse
  split at hparse
  · exact parseCalendarFields_second _ _ _ _ hparse
  · rename_i heq
    rw [heq] at hfields
    simp at hfields
  · cases hparse

/-- The horizon as a number of seconds. -/
theorem horizon_eq : (horizon : Int) = 12622780800 := by
  norm_num [horizon]

/-- Dates and weekdays repeat after 400 Gregorian years, and so does every
schedule. -/
theorem matches_add_horizon (s : ParsedSchedule) (t : Int) :
    s.matches (t + horizon) = s.matches t := by
  rw [horizon_eq]
  have h1 : (t + 12622780800) / 86400 = t / 86400 + 146097 := by omega
  have h2 : (t + 12622780800) % 60 = t % 60 := by omega
  have h3 : (t + 12622780800) / 60 % 60 = t / 60 % 60 := by omega
  have h4 : (t + 12622780800) / 3600 % 24 = t / 3600 % 24 := by omega
  have h5 : monthDay (t / 86400 + 146097) = monthDay (t / 86400) := by
    have : (t / 86400 + 146097 + 719468) % 146097 = (t / 86400 + 719468) % 146097 := by omega
    simp only [monthDay, this]
  have h6 : weekday (t / 86400 + 146097) = weekday (t / 86400) := by
    have : (t / 86400 + 146097 + 4) % 7 = (t / 86400 + 4) % 7 := by omega
    simp only [weekday, this]
  simp only [ParsedSchedule.matches, h1, h2, h3, h4, h5, h6]

/-- A schedule repeats after any number of horizons. -/
theorem matches_add_horizons (s : ParsedSchedule) (t : Int) (k : Nat) :
    s.matches (t + k * horizon) = s.matches t := by
  induction k with
  | zero => simp
  | succ k ih =>
    have : t + ((k + 1 : Nat) : Int) * horizon = (t + k * horizon) + horizon := by
      push_cast
      ring
    rw [this, matches_add_horizon, ih]

/-- The granularity is the second or the minute. -/
theorem granule_cases (s : ParsedSchedule) : s.granule = 1 ∨ s.granule = 60 := by
  unfold ParsedSchedule.granule
  cases s.second <;> simp

/-- A schedule matches only on its granularity: a schedule without seconds
field matches whole minutes only. -/
theorem matches_granule (s : ParsedSchedule) (t : Int) (h : s.matches t = true) :
    t % (s.granule : Int) = 0 := by
  unfold ParsedSchedule.granule
  cases hs : s.second with
  | some _ => simp
  | none =>
    simp only [ParsedSchedule.matches, hs, Bool.and_eq_true, decide_eq_true_eq] at h
    simpa using h.1.1.1.1

/-- The search returns the first candidate that matches. -/
theorem nextFrom_some (s : ParsedSchedule) (g n : Nat) (t0 t : Int)
    (h : nextFrom s g n t0 = some t) :
    ∃ i : Nat, i < n ∧ t = t0 + i * g ∧ s.matches t = true ∧
      ∀ j : Nat, j < i → s.matches (t0 + j * g) = false := by
  induction n generalizing t0 with
  | zero => simp [nextFrom] at h
  | succ n ih =>
    unfold nextFrom at h
    by_cases hm : s.matches t0 = true
    · simp only [hm, if_true, Option.some.injEq] at h
      subst h
      exact ⟨0, by omega, by simp, hm, fun j hj => absurd hj (by omega)⟩
    · simp only [hm] at h
      obtain ⟨i, hi, ht, hmt, hmin⟩ := ih (t0 + g) h
      refine ⟨i + 1, by omega, ?_, hmt, ?_⟩
      · rw [ht]
        push_cast
        ring
      · intro j hj
        cases j with
        | zero => simpa using hm
        | succ j =>
          have := hmin j (by omega)
          have e : t0 + ((j + 1 : Nat) : Int) * g = t0 + g + j * g := by
            push_cast
            ring
          rw [e]
          exact this

/-- The search finds nothing only when no candidate matches. -/
theorem nextFrom_none (s : ParsedSchedule) (g n : Nat) (t0 : Int)
    (h : nextFrom s g n t0 = none) :
    ∀ j : Nat, j < n → s.matches (t0 + j * g) = false := by
  induction n generalizing t0 with
  | zero => intro j hj; omega
  | succ n ih =>
    unfold nextFrom at h
    by_cases hm : s.matches t0 = true
    · simp [hm] at h
    · simp only [hm] at h
      intro j hj
      cases j with
      | zero => simpa using hm
      | succ j =>
        have := ih (t0 + g) h j (by omega)
        have e : t0 + ((j + 1 : Nat) : Int) * g = t0 + g + j * g := by
          push_cast
          ring
        rw [e]
        exact this

/-- What `next` returns is strictly after `after`, matches the schedule, and is
the soonest such instant. -/
theorem next_some (s : ParsedSchedule) (after t : Int) (h : next s after = some t) :
    after < t ∧ s.matches t = true ∧ ∀ u, after < u → u < t → s.matches u = false := by
  unfold next at h
  obtain ⟨i, _, ht, hmt, hmin⟩ := nextFrom_some s _ _ _ t h
  refine ⟨?_, hmt, ?_⟩
  · rcases granule_cases s with hg | hg <;> rw [hg] at ht <;> push_cast at ht <;> omega
  · intro u hu hut
    cases hmu : s.matches u with
    | false => rfl
    | true =>
      exfalso
      have hgran := matches_granule s u hmu
      rcases granule_cases s with hg | hg
      · rw [hg] at ht hmin hgran
        have hj := hmin (u - (after / 1 + 1) * 1).toNat (by push_cast at ht; omega)
        have e : (after / ((1 : Nat) : Int) + 1) * ((1 : Nat) : Int) +
            ((u - (after / 1 + 1) * 1).toNat : Int) * ((1 : Nat) : Int) = u := by
          push_cast
          omega
        rw [e, hmu] at hj
        cases hj
      · rw [hg] at ht hmin hgran
        push_cast at hgran
        have hj := hmin ((u - (after / 60 + 1) * 60) / 60).toNat (by push_cast at ht; omega)
        have e : (after / ((60 : Nat) : Int) + 1) * ((60 : Nat) : Int) +
            (((u - (after / 60 + 1) * 60) / 60).toNat : Int) * ((60 : Nat) : Int) = u := by
          push_cast
          omega
        rw [e, hmu] at hj
        cases hj

/-- When the schedule matches some instant after `after`, `next` returns an
instant: the horizon of 400 years loses no schedule. -/
theorem next_isSome (s : ParsedSchedule) (after u : Int) (hu : after < u)
    (hmu : s.matches u = true) : ∃ t, next s after = some t := by
  cases hn : next s after with
  | some t => exact ⟨t, rfl⟩
  | none =>
    exfalso
    unfold next at hn
    have hnone := nextFrom_none s _ _ _ hn
    have hgran := matches_granule s u hmu
    have hH := horizon_eq
    rcases granule_cases s with hg | hg
    · rw [hg] at hnone hgran
      push_cast at hgran
      have hper := matches_add_horizons s (u - ((u - (after + 1)) / 12622780800).toNat * horizon)
        ((u - (after + 1)) / 12622780800).toNat
      have e1 : u - (((u - (after + 1)) / 12622780800).toNat : Int) * horizon +
          (((u - (after + 1)) / 12622780800).toNat : Int) * horizon = u := by ring
      rw [e1, hmu] at hper
      have hj := hnone ((u - (after + 1)) % 12622780800).toNat (by
        have : horizon / 1 = 12622780800 := by norm_num [horizon]
        rw [this]
        omega)
      have e2 : (after / ((1 : Nat) : Int) + 1) * ((1 : Nat) : Int) +
          (((u - (after + 1)) % 12622780800).toNat : Int) * ((1 : Nat) : Int) =
          u - (((u - (after + 1)) / 12622780800).toNat : Int) * horizon := by
        rw [hH]
        push_cast
        omega
      rw [e2, ← hper] at hj
      cases hj
    · rw [hg] at hnone hgran
      push_cast at hgran
      have hper := matches_add_horizons s
        (u - ((u - (after / 60 + 1) * 60) / 12622780800).toNat * horizon)
        ((u - (after / 60 + 1) * 60) / 12622780800).toNat
      have e1 : u - (((u - (after / 60 + 1) * 60) / 12622780800).toNat : Int) * horizon +
          (((u - (after / 60 + 1) * 60) / 12622780800).toNat : Int) * horizon = u := by ring
      rw [e1, hmu] at hper
      have hj := hnone (((u - (after / 60 + 1) * 60) % 12622780800) / 60).toNat (by
        have : horizon / 60 = 210379680 := by norm_num [horizon]
        rw [this]
        omega)
      have e2 : (after / ((60 : Nat) : Int) + 1) * ((60 : Nat) : Int) +
          ((((u - (after / 60 + 1) * 60) % 12622780800) / 60).toNat : Int) * ((60 : Nat) : Int) =
          u - (((u - (after / 60 + 1) * 60) / 12622780800).toNat : Int) * horizon := by
        rw [hH]
        push_cast
        omega
      rw [e2, ← hper] at hj
      cases hj

/-- C9: for a 5-field expression `E` accepted by `parse` and every instant `T`,
the instant `next` computes is strictly after `T`; it is a whole minute, it
matches the schedule and no instant between `T` and it does; and `next` does
compute an instant whenever the schedule matches any instant after `T`. -/
theorem next_strictly_after (E : String) (s : ParsedSchedule) (T : Int)
    (hfields : (fields E.data).length = 5) (hparse : parse E = Except.ok s) :
    (∀ t, next s T = some t →
      T < t ∧ t % 60 = 0 ∧ s.matches t = true ∧
        ∀ u, T < u → u < t → s.matches u = false) ∧
    ((∃ u, T < u ∧ s.matches u = true) → ∃ t, next s T = some t) := by
  have hsec := parse_five_fields E s hfields hparse
  refine ⟨fun t ht => ?_, fun ⟨u, hu, hmu⟩ => next_isSome s T u hu hmu⟩
  obtain ⟨hlt, hm, hmin⟩ := next_some s T t ht
  have hgran := matches_granule s t hm
  simp only [ParsedSchedule.granule, hsec] at hgran
  exact ⟨hlt, by simpa using hgran, hm, hmin⟩

/-- Witness of C9: the schedule `*/5 * * * *` of the scenario, asked one second
after 2026-11-01T00:00:00Z, fires next at 00:05:00. -/
theorem next_strictly_after_witness :
    parse "*/5 * * * *" = Except.ok everyFiveMinutes ∧
    next everyFiveMinutes 1793491201 = some 1793491500 ∧
    (1793491201 : Int) < 1793491500 :=
  ⟨rfl, by decide,
   ((next_strictly_after "*/5 * * * *" everyFiveMinutes 1793491201 (by decide) rfl).1
      1793491500 (by decide)).1⟩

/-- The day fields are OR-combined when both are restricted: `0 0 1 * 1` matches
2025-01-01 (a Wednesday) and Monday 2025-01-06, and not Thursday 2025-01-02. -/
theorem firstOrMonday_matches :
    parse "0 0 1 * 1" = Except.ok firstOrMonday ∧
    firstOrMonday.matches (20089 * 86400) = true ∧
    firstOrMonday.matches (20094 * 86400) = true ∧
    firstOrMonday.matches (20090 * 86400) = false ∧
    monthDay 20089 = (1, 1) ∧ weekday 20089 = 3 ∧ weekday 20094 = 1 :=
  ⟨rfl, by decide, by decide, by decide, by decide, by decide, by decide⟩

/-- Malformed expressions are rejected by `parse`: a wrong field count, a value
out of range, a step of 0. -/
theorem parse_rejects :
    parse "* * * *" = Except.error (ScheduleSyntaxError.fieldCount 4) ∧
    parse "60 * * * *" = Except.error (ScheduleSyntaxError.field 0) ∧
    parse "*/0 * * * *" = Except.error (ScheduleSyntaxError.field 0) ∧
    parse "* * 31 13 *" = Except.error (ScheduleSyntaxError.field 3) :=
  ⟨rfl, rfl, rfl, rfl⟩

end ElasticCron
